import Mathlib

/-!
Verification of the local RAG retrieval pipeline in
`src/employees/r&d/document_research_agent.py`.

The development shallowly embeds the pipeline's pure content:

* `chunkFuel` / `chunkLoop` / `chunk_text` — the token-window chunker
  (`chunk_text`, lines 178–191).  The Python `while` loop advances an index
  `i` by `chunk_size - chunk_overlap` per step; we model it with explicit
  fuel (`tokens.length + 1` is always sufficient when `overlap < size`;
  when `overlap ≥ size` the Python loop diverges, and the model returns
  the chunks produced before fuel runs out).
* `LocalVectorStore` — the FAISS-backed store.  The FAISS `IndexFlatIP`
  holds vectors in insertion order as a flat float array; we model its
  contents as `indexVecs : List Vec` with `Vec := List Int` (real-number
  arithmetic is modelled exactly over ℤ; the claims under examination are
  about counts, ordering and metadata pairing, not float rounding).
  `dimension` tracks the index's dimensionality `index.d` (after
  `_load_index` it comes from the file; the dataclass field is read only
  when a fresh index is created).
* `FileSystem` — the three disk paths the program touches:
  `local_docs.index` (checked by `__post_init__`), `local_docs.index.faiss`
  and `local_docs.index.meta.json` (written by `save`, read by
  `_load_index`).
* `ensure_vectorstore_build` / `search_local_docs` — the build and query
  orchestration (lines 193–246 and 252–284), parameterised over the
  external collaborators: filesystem state, corpus enumeration, tiktoken
  encoding, and the OpenAI embedding provider (a per-chunk
  `String → Option Vec` for the build loop, whose `none` models a raised
  exception, and an `Except String Vec` for the query embedding).
-/

namespace DocResearch

/-- Ceiling division on naturals: `ceilDiv n s = ⌈n / s⌉` for `s > 0`. -/
def ceilDiv (n s : Nat) : Nat := (n + s - 1) / s

theorem ceilDiv_zero (s : Nat) (hs : 0 < s) : ceilDiv 0 s = 0 := by
  unfold ceilDiv
  exact Nat.div_eq_of_lt (by omega)

theorem ceilDiv_step (m s : Nat) (hs : 0 < s) (hm : 0 < m) :
    ceilDiv m s = ceilDiv (m - s) s + 1 := by
  rcases Nat.le_total m s with h | h
  · have h1 : m - s = 0 := Nat.sub_eq_zero_of_le h
    rw [h1]
    show (m + s - 1) / s = (0 + s - 1) / s + 1
    rw [Nat.div_eq_of_lt (by omega : 0 + s - 1 < s)]
    have h2 : m + s - 1 = (m - 1) + s := by omega
    rw [h2, Nat.add_div_right _ hs, Nat.div_eq_of_lt (by omega : m - 1 < s)]
  · show (m + s - 1) / s = (m - s + s - 1) / s + 1
    have h2 : m + s - 1 = (m - s + s - 1) + s := by omega
    rw [h2, Nat.add_div_right _ hs]

theorem le_ceilDiv_mul (n s : Nat) (hs : 0 < s) : n ≤ ceilDiv n s * s := by
  unfold ceilDiv
  have h1 := Nat.div_add_mod (n + s - 1) s
  have h2 : (n + s - 1) % s < s := Nat.mod_lt _ hs
  have hns : 1 ≤ n + s := by omega
  zify [hns] at h1 h2 ⊢
  nlinarith [h1, h2]

theorem ceilDiv_pos (n s : Nat) (hs : 0 < s) (hn : 0 < n) : 0 < ceilDiv n s := by
  rw [ceilDiv_step n s hs hn]
  omega

/-! ### The chunker (`chunk_text`, lines 178–191)

```python
def chunk_text(text, chunk_size=600, chunk_overlap=100):
    enc = tiktoken.get_encoding("cl100k_base")
    tokens = enc.encode(text)
    chunks = []
    i = 0
    while i < len(tokens):
        chunk = tokens[i : i + chunk_size]
        chunk_str = enc.decode(chunk)
        chunks.append(chunk_str)
        i += chunk_size - chunk_overlap
    return chunks
```
-/

/-- The tiktoken encoding, as an abstract external collaborator: it maps a
string to an integer token stream and decodes a token slice back to text. -/
structure Encoding where
  encode : String → List Nat
  decode : List Nat → String

/-- The body of the `while i < len(tokens)` loop of `chunk_text`, at the
token level.  `tokens[i : i + size]` is `(tokens.drop i).take size`, and
each iteration advances `i` by `size - overlap`.  The structural `fuel`
argument only bounds the iteration count; `tokens.length + 1` steps always
suffice when `overlap < size` (see `chunkFuel_eq`). -/
def chunkFuel (tokens : List Nat) (size overlap : Nat) : Nat → Nat → List (List Nat)
  | 0, _ => []
  | fuel + 1, i =>
    if i < tokens.length then
      ((tokens.drop i).take size) :: chunkFuel tokens size overlap fuel (i + (size - overlap))
    else []

/-- The full chunking loop of `chunk_text` on a token stream, started at
`i = 0` with adequate fuel. -/
def chunkLoop (tokens : List Nat) (size overlap : Nat) : List (List Nat) :=
  chunkFuel tokens size overlap (tokens.length + 1) 0

/-- The function `chunk_text`: encode the text, run the windowing loop, decode each
token window back to a string.  The Python defaults are
`chunk_size = 600`, `chunk_overlap = 100`; callers of the model pass them
explicitly. -/
def chunk_text (enc : Encoding) (text : String) (size overlap : Nat) : List String :=
  (chunkLoop (enc.encode text) size overlap).map enc.decode

/-- Closed form of the chunking loop: starting at offset `i`, the loop
emits one window per start offset `i, i + s, i + 2s, …` below
`tokens.length`, which is `⌈(tokens.length - i) / s⌉` windows for stride
`s = size - overlap`. -/
theorem chunkFuel_eq (tokens : List Nat) (size overlap : Nat) (hO : overlap < size) :
    ∀ fuel i, tokens.length - i < fuel →
      chunkFuel tokens size overlap fuel i =
        (List.range (ceilDiv (tokens.length - i) (size - overlap))).map
          (fun j => (tokens.drop (i + j * (size - overlap))).take size) := by
  intro fuel
  induction fuel with
  | zero => intro i h; omega
  | succ fuel ih =>
    intro i h
    have hs : 0 < size - overlap := by omega
    by_cases hi : i < tokens.length
    · rw [chunkFuel, if_pos hi]
      have hm : 0 < tokens.length - i := by omega
      rw [ceilDiv_step _ _ hs hm]
      have hsub : tokens.length - (i + (size - overlap)) = tokens.length - i - (size - overlap) := by
        omega
      have hih := ih (i + (size - overlap)) (by omega)
      rw [hih, hsub, List.range_succ_eq_map, List.map_cons, List.map_map]
      have h0 : i + 0 * (size - overlap) = i := by omega
      rw [h0]
      congr 1
      apply List.map_congr_left
      intro j _
      have : i + Nat.succ j * (size - overlap) = i + (size - overlap) + j * (size - overlap) := by
        rw [Nat.succ_mul]; omega
      simp only [Function.comp_apply, this]
    · rw [chunkFuel, if_neg hi]
      have h0 : tokens.length - i = 0 := by omega
      rw [h0, ceilDiv_zero _ hs, List.range_zero, List.map_nil]

/-- Closed form of `chunkLoop` from offset 0. -/
theorem chunkLoop_eq (tokens : List Nat) (size overlap : Nat) (hO : overlap < size) :
    chunkLoop tokens size overlap =
      (List.range (ceilDiv tokens.length (size - overlap))).map
        (fun j => (tokens.drop (j * (size - overlap))).take size) := by
  unfold chunkLoop
  rw [chunkFuel_eq tokens size overlap hO (tokens.length + 1) 0 (by omega)]
  simp only [Nat.sub_zero, Nat.zero_add]

theorem ceilDiv_le_of_le_mul (n t s : Nat) (hs : 0 < s) (h : n ≤ t * s) : ceilDiv n s ≤ t := by
  unfold ceilDiv
  calc (n + s - 1) / s ≤ (s * t + (s - 1)) / s := by
        apply Nat.div_le_div_right; rw [Nat.mul_comm]; omega
    _ = t := by
        rw [Nat.mul_add_div hs, Nat.div_eq_of_lt (by omega : s - 1 < s)]
        omega

/-- A concrete instance of the tiktoken collaborator, used in closed
evaluations: each character is one token (its code point). -/
def charEncoding : Encoding where
  encode s := s.data.map Char.toNat
  decode ts := String.mk (ts.map Char.ofNat)

/-- C2.  For every token encoding of a text (`N` tokens) and window
parameters `size`/`overlap` with `overlap < size`, `chunk_text` emits
exactly `⌈N / (size - overlap)⌉` chunks; the `j`-th chunk is the decoding
of the token slice starting at `j * (size - overlap)` of length
`min size (N - j * (size - overlap))`; the final chunk has length
`N - (steps - 1) * (size - overlap)`. -/
theorem chunk_text_window_spec (enc : Encoding) (text : String) (size overlap : Nat)
    (hO : overlap < size) :
    (chunk_text enc text size overlap).length =
      ceilDiv (enc.encode text).length (size - overlap) ∧
    (∀ j, j < ceilDiv (enc.encode text).length (size - overlap) →
      (chunk_text enc text size overlap).getD j (enc.decode []) =
        enc.decode (((enc.encode text).drop (j * (size - overlap))).take size) ∧
      (((enc.encode text).drop (j * (size - overlap))).take size).length =
        min size ((enc.encode text).length - j * (size - overlap))) ∧
    (0 < (enc.encode text).length →
      (((enc.encode text).drop
          ((ceilDiv (enc.encode text).length (size - overlap) - 1) *
            (size - overlap))).take size).length =
        (enc.encode text).length -
          (ceilDiv (enc.encode text).length (size - overlap) - 1) * (size - overlap)) := by
  have hs : 0 < size - overlap := by omega
  set tokens := enc.encode text with htokens
  set N := tokens.length with hN
  set s := size - overlap with hsdef
  set steps := ceilDiv N s with hsteps
  have hrw : chunk_text enc text size overlap =
      (List.range steps).map (fun j => enc.decode ((tokens.drop (j * s)).take size)) := by
    rw [chunk_text, ← htokens, chunkLoop_eq tokens size overlap hO, List.map_map]
    rfl
  have hlen : (chunk_text enc text size overlap).length = steps := by
    rw [hrw, List.length_map, List.length_range]
  refine ⟨hlen, ?_, ?_⟩
  · intro j hj
    constructor
    · have hjlen : j < (chunk_text enc text size overlap).length := by omega
      rw [List.getD_eq_getElem _ _ hjlen]
      have : ∀ (h : j < ((List.range steps).map
          (fun j => enc.decode ((tokens.drop (j * s)).take size))).length),
          ((List.range steps).map
            (fun j => enc.decode ((tokens.drop (j * s)).take size)))[j] =
            enc.decode ((tokens.drop (j * s)).take size) := by
        intro h
        rw [List.getElem_map, List.getElem_range]
      simp only [hrw] at *
      exact this _
    · rw [List.length_take, List.length_drop]
  · intro hNpos
    rw [List.length_take, List.length_drop]
    have hpos : 0 < steps := ceilDiv_pos N s hs hNpos
    obtain ⟨t, ht⟩ : ∃ t, steps = t + 1 := ⟨steps - 1, by omega⟩
    have hmul := le_ceilDiv_mul N s hs
    rw [← hsteps, ht, Nat.add_one_sub_one, Nat.add_mul, Nat.one_mul] at *
    generalize t * s = X at *
    omega

/-- Witness for C2 at a concrete input: `"abcde"` under the one-token-per-
character encoding with `size = 3`, `overlap = 2` (stride 1, 5 chunks). -/
theorem chunk_text_window_spec_witness :
    ((chunk_text charEncoding "abcde" 3 2).length =
        ceilDiv (charEncoding.encode "abcde").length (3 - 2) ∧
      (∀ j, j < ceilDiv (charEncoding.encode "abcde").length (3 - 2) →
        (chunk_text charEncoding "abcde" 3 2).getD j (charEncoding.decode []) =
          charEncoding.decode (((charEncoding.encode "abcde").drop (j * (3 - 2))).take 3) ∧
        (((charEncoding.encode "abcde").drop (j * (3 - 2))).take 3).length =
          min 3 ((charEncoding.encode "abcde").length - j * (3 - 2))) ∧
      (0 < (charEncoding.encode "abcde").length →
        (((charEncoding.encode "abcde").drop
            ((ceilDiv (charEncoding.encode "abcde").length (3 - 2) - 1) * (3 - 2))).take 3).length =
          (charEncoding.encode "abcde").length -
            (ceilDiv (charEncoding.encode "abcde").length (3 - 2) - 1) * (3 - 2))) ∧
    chunk_text charEncoding "abcde" 3 2 = ["abc", "bcd", "cde", "de", "e"] :=
  ⟨chunk_text_window_spec charEncoding "abcde" 3 2 (by decide), by decide⟩

/-- C3 counterexample.  On the 4-token stream `[0,1,2,3]` with
`size = 3`, `overlap = 2` (both satisfying `0 ≤ overlap < size`), the
chunk emitted at position 1 is `[1,2,3]`: its token range reaches the end
of the stream, yet two further chunks (`[2,3]` and `[3]`) are emitted
after it, and three of the four emitted chunks contain the final token —
refuting both "the first chunk reaching the end is the last chunk
emitted" and "exactly one chunk contains the final token". -/
theorem chunk_final_token_counterexample :
    (chunkLoop [0, 1, 2, 3] 3 2).length = 4 ∧
    (chunkLoop [0, 1, 2, 3] 3 2).getD 1 [] = [1, 2, 3] ∧
    (chunkLoop [0, 1, 2, 3] 3 2).countP (fun c => c.contains 3) = 3 ∧
    ¬ (chunkLoop [0, 1, 2, 3] 3 2).countP (fun c => c.contains 3) = 1 := by
  decide

/-- C3 as amended.  Chunking stops at the first start offset at or past
the end of the stream; the *last* emitted chunk always extends to the
final token (it equals the entire remaining tail of the stream, whose
start offset is a valid position), though when `overlap > 0` an earlier
chunk may also reach the final token. -/
theorem chunk_last_window_reaches_end (tokens : List Nat) (size overlap : Nat)
    (hO : overlap < size) (hne : tokens ≠ []) :
    0 < (chunkLoop tokens size overlap).length ∧
    (chunkLoop tokens size overlap).getD ((chunkLoop tokens size overlap).length - 1) [] =
      tokens.drop (((chunkLoop tokens size overlap).length - 1) * (size - overlap)) ∧
    ((chunkLoop tokens size overlap).length - 1) * (size - overlap) < tokens.length := by
  have hs : 0 < size - overlap := by omega
  set N := tokens.length with hN
  set s := size - overlap with hsdef
  set steps := ceilDiv N s with hsteps
  have hNpos : 0 < N := by
    rw [hN]
    exact List.length_pos.mpr hne
  have hpos : 0 < steps := ceilDiv_pos N s hs hNpos
  have hrw := chunkLoop_eq tokens size overlap hO
  have hlen : (chunkLoop tokens size overlap).length = steps := by
    rw [hrw, List.length_map, List.length_range]
  have hstart : (steps - 1) * s < N := by
    by_contra hcon
    have : steps ≤ steps - 1 :=
      ceilDiv_le_of_le_mul N (steps - 1) s hs (by omega)
    omega
  have htail : N - (steps - 1) * s ≤ size := by
    obtain ⟨t, ht⟩ : ∃ t, steps = t + 1 := ⟨steps - 1, by omega⟩
    have hmul := le_ceilDiv_mul N s hs
    rw [← hsteps, ht, Nat.add_mul, Nat.one_mul] at hmul
    rw [ht, Nat.add_one_sub_one]
    generalize t * s = X at *
    omega
  refine ⟨by omega, ?_, by rw [hlen]; exact hstart⟩
  rw [hlen]
  have hlt : steps - 1 < (chunkLoop tokens size overlap).length := by omega
  rw [List.getD_eq_getElem _ _ hlt]
  have : ∀ (h : steps - 1 < ((List.range steps).map
      (fun j => (tokens.drop (j * s)).take size)).length),
      ((List.range steps).map (fun j => (tokens.drop (j * s)).take size))[steps - 1] =
        (tokens.drop ((steps - 1) * s)).take size := by
    intro h
    rw [List.getElem_map, List.getElem_range]
  simp only [hrw] at *
  rw [this _]
  apply List.take_of_length_le
  rw [List.length_drop]
  exact htail

/-- Witness for the amended C3 at the concrete input of the
counterexample: the last of the 4 chunks is `[3]`, the remaining tail. -/
theorem chunk_last_window_reaches_end_witness :
    (0 < (chunkLoop [0, 1, 2, 3] 3 2).length ∧
      (chunkLoop [0, 1, 2, 3] 3 2).getD ((chunkLoop [0, 1, 2, 3] 3 2).length - 1) [] =
        [0, 1, 2, 3].drop (((chunkLoop [0, 1, 2, 3] 3 2).length - 1) * (3 - 2)) ∧
      ((chunkLoop [0, 1, 2, 3] 3 2).length - 1) * (3 - 2) < [0, 1, 2, 3].length) ∧
    (chunkLoop [0, 1, 2, 3] 3 2).getD 3 [] = [3] :=
  ⟨chunk_last_window_reaches_end [0, 1, 2, 3] 3 2 (by decide) (by decide), by decide⟩

/-! ### The vector store (`LocalVectorStore`, lines 119–171)

```python
@dataclass
class LocalVectorStore:
    dimension: int
    index_path: str
    index: faiss.IndexFlatIP = field(default=None)
    doc_meta: List[Dict] = field(default_factory=list)
```

A FAISS `IndexFlatIP` holds `ntotal` vectors of dimension `d` in
insertion order, scores a query by the inner product against every stored
vector, and returns the `k` best (distance, index) pairs, padding with
index `-1` when fewer than `k` vectors are stored.  `index_path` is fixed
to `"local_docs.index"` by the program; the model keeps the filesystem as
an explicit value (`FileSystem` below) instead of a path string. -/

/-- An embedding vector.  The model computes real arithmetic exactly over
ℤ; the claims under study concern counts, ordering and metadata pairing,
not float rounding. -/
abbrev Vec := List Int

/-- Inner product, the similarity measure of `IndexFlatIP`. -/
def ip (a b : Vec) : Int := (List.zipWith (fun x y => x * y) a b).sum

/-- One entry of the `doc_meta` list: the JSON dict
`{"text_chunk": ..., "source": ...}` built by the embedding loop. -/
structure Meta where
  text_chunk : String
  source : String
deriving Repr, DecidableEq

/-- One element of the list returned by `LocalVectorStore.search`:
the dict `{"score": ..., "text": ..., "source": ...}`. -/
structure SearchResult where
  score : Int
  text : String
  source : String
deriving Repr, DecidableEq

/-- The in-memory store: the FAISS index's dimensionality and contents,
and the parallel metadata list. -/
structure LocalVectorStore where
  dimension : Nat
  indexVecs : List Vec
  doc_meta : List Meta
deriving Repr, DecidableEq

/-- Insert one (score, index) candidate into a descending-sorted list,
keeping it sorted (the model of FAISS's top-`k` selection; FAISS's tie
order is unspecified, the model resolves ties deterministically). -/
def insertDesc (x : Int × Int) : List (Int × Int) → List (Int × Int)
  | [] => [x]
  | y :: ys => if y.1 ≤ x.1 then x :: y :: ys else y :: insertDesc x ys

/-- Sort (score, index) candidates by descending score. -/
def sortDesc : List (Int × Int) → List (Int × Int)
  | [] => []
  | x :: xs => insertDesc x (sortDesc xs)

/-- The inner product of the query with every stored vector, paired with
the vector's position, in index order. -/
def scoredList (vecs : List Vec) (q : Vec) : List (Int × Int) :=
  (List.range vecs.length).map (fun i => (ip q (vecs.getD i []), (i : Int)))

/-- The FAISS call `index.search(vec, k)`: the `k` best (distance, index) pairs in
descending score order; when fewer than `k` vectors are stored the
remaining slots carry index `-1` (their distance slot is never read by
the caller, which skips negative indices; the model fills it with 0). -/
def faissTopK (vecs : List Vec) (q : Vec) (k : Nat) : List (Int × Int) :=
  (sortDesc (scoredList vecs q)).take k ++ List.replicate (k - vecs.length) ((0 : Int), (-1 : Int))

/-- The result dict appended by the loop body of `search` for a kept
candidate: score, chunk text and source read from `doc_meta`.  The `getD`
default is never read — the caller's bounds guard precedes the read,
exactly as the Python `continue` guard precedes `self.doc_meta[i]`. -/
def toResult (meta : List Meta) (di : Int × Int) : SearchResult :=
  { score := di.1,
    text := (meta.getD di.2.toNat { text_chunk := "", source := "" }).text_chunk,
    source := (meta.getD di.2.toNat { text_chunk := "", source := "" }).source }

/-- The loop body of `search`: skip a candidate whose index is negative
or at or beyond the end of `doc_meta`, keep the rest. -/
def searchCandidate (meta : List Meta) (di : Int × Int) : Option SearchResult :=
  if 0 ≤ di.2 ∧ di.2.toNat < meta.length then some (toResult meta di) else none

/-- The method `LocalVectorStore.search` (lines 158–171): run the FAISS query and
collect the kept candidates in order. -/
def LocalVectorStore.search (s : LocalVectorStore) (q : Vec) (k : Nat) : List SearchResult :=
  (faissTopK s.indexVecs q k).filterMap (searchCandidate s.doc_meta)

/-- The `-1` padding slots FAISS emits when `k` exceeds the stored vector
count are always skipped. -/
theorem searchCandidate_pad (meta : List Meta) :
    searchCandidate meta ((0 : Int), (-1 : Int)) = none := by
  rw [searchCandidate]
  exact if_neg (fun h => absurd h.1 (by omega))

/-- The method `LocalVectorStore.add_embeddings` (lines 144–150): no-op on an empty
embedding list, otherwise append the vectors to the index and extend the
metadata list in lock-step. -/
def LocalVectorStore.add_embeddings (s : LocalVectorStore)
    (embeddings : List Vec) (metas : List Meta) : LocalVectorStore :=
  if embeddings.isEmpty then s
  else { s with indexVecs := s.indexVecs ++ embeddings, doc_meta := s.doc_meta ++ metas }

/-! ### Sorting lemmas -/

theorem insertDesc_perm (x : Int × Int) (l : List (Int × Int)) :
    List.Perm (insertDesc x l) (x :: l) := by
  induction l with
  | nil => rfl
  | cons y ys ih =>
    rw [insertDesc]
    by_cases h : y.1 ≤ x.1
    · rw [if_pos h]
    · rw [if_neg h]
      exact List.Perm.trans (List.Perm.cons y ih) (List.Perm.swap x y ys)

theorem sortDesc_perm (l : List (Int × Int)) : List.Perm (sortDesc l) l := by
  induction l with
  | nil => rfl
  | cons x xs ih =>
    rw [sortDesc]
    exact List.Perm.trans (insertDesc_perm x (sortDesc xs)) (List.Perm.cons x ih)

theorem insertDesc_pairwise (x : Int × Int) (l : List (Int × Int))
    (h : l.Pairwise (fun a b => b.1 ≤ a.1)) :
    (insertDesc x l).Pairwise (fun a b => b.1 ≤ a.1) := by
  induction l with
  | nil => exact List.pairwise_singleton _ x
  | cons y ys ih =>
    rw [insertDesc]
    rcases List.pairwise_cons.mp h with ⟨hy, hys⟩
    by_cases hxy : y.1 ≤ x.1
    · rw [if_pos hxy]
      refine List.pairwise_cons.mpr ⟨?_, h⟩
      intro b hb
      rcases List.mem_cons.mp hb with hb | hb
      · rw [hb]; exact hxy
      · exact le_trans (hy b hb) hxy
    · rw [if_neg hxy]
      refine List.pairwise_cons.mpr ⟨?_, ih hys⟩
      intro b hb
      have hb' : b ∈ x :: ys := (insertDesc_perm x ys).mem_iff.mp hb
      rcases List.mem_cons.mp hb' with hb' | hb'
      · rw [hb']; omega
      · exact hy b hb'

theorem sortDesc_pairwise (l : List (Int × Int)) :
    (sortDesc l).Pairwise (fun a b => b.1 ≤ a.1) := by
  induction l with
  | nil => exact List.Pairwise.nil
  | cons x xs ih => exact insertDesc_pairwise x (sortDesc xs) ih

/-! ### Generic helper lemmas about `filterMap` -/

theorem filterMap_eq_map_of_forall {α β : Type} (f : α → Option β) (g : α → β)
    (l : List α) (h : ∀ a ∈ l, f a = some (g a)) : l.filterMap f = l.map g := by
  induction l with
  | nil => rfl
  | cons a l ih =>
    rw [List.filterMap_cons, h a (List.mem_cons_self a l), List.map_cons,
      ih (fun b hb => h b (List.mem_cons_of_mem a hb))]

theorem filterMap_replicate_none {α β : Type} (f : α → Option β) (a : α) (n : Nat)
    (h : f a = none) : (List.replicate n a).filterMap f = [] := by
  induction n with
  | zero => rfl
  | succ n ih => rw [List.replicate_succ, List.filterMap_cons, h, ih]

theorem filterMap_guard_eq {α β : Type} (c : α → Prop) [DecidablePred c] (g : α → β)
    (l : List α) :
    (l.filterMap fun a => if c a then some (g a) else none) =
      (l.filter (fun a => decide (c a))).map g := by
  induction l with
  | nil => rfl
  | cons a l ih =>
    rw [List.filterMap_cons, List.filter_cons]
    by_cases h : c a
    · rw [if_pos h, if_pos (by simpa using h), List.map_cons, ih]
    · rw [if_neg h, if_neg (by simpa using h), ih]

theorem length_le_of_nodup_lt (l : List Nat) (m : Nat) (hn : l.Nodup)
    (hlt : ∀ x ∈ l, x < m) : l.length ≤ m := by
  classical
  have h1 : l.toFinset.card = l.length := List.toFinset_card_of_nodup hn
  have h2 : l.toFinset ⊆ Finset.range m := by
    intro x hx
    rw [Finset.mem_range]
    exact hlt x (List.mem_toFinset.mp hx)
  have h3 := Finset.card_le_card h2
  rw [Finset.card_range] at h3
  omega

theorem mem_scoredList (vecs : List Vec) (q : Vec) (p : Int × Int)
    (h : p ∈ scoredList vecs q) :
    ∃ i, i < vecs.length ∧ p = (ip q (vecs.getD i []), (i : Int)) := by
  rcases List.mem_map.mp h with ⟨i, hi, hp⟩
  exact ⟨i, List.mem_range.mp hi, hp.symm⟩

/-- Dropping the FAISS `-1` padding: `search` is the filterMap of the
kept-candidate function over the top-`k` real candidates. -/
theorem search_eq_filterMap_take (s : LocalVectorStore) (q : Vec) (k : Nat) :
    s.search q k =
      ((sortDesc (scoredList s.indexVecs q)).take k).filterMap (searchCandidate s.doc_meta) := by
  unfold LocalVectorStore.search faissTopK
  rw [List.filterMap_append,
    filterMap_replicate_none _ _ _ (searchCandidate_pad s.doc_meta), List.append_nil]

theorem search_eq_of_consistent (s : LocalVectorStore) (q : Vec) (k : Nat)
    (hcons : s.indexVecs.length = s.doc_meta.length) :
    s.search q k =
      ((sortDesc (scoredList s.indexVecs q)).take k).map (toResult s.doc_meta) := by
  rw [search_eq_filterMap_take]
  apply filterMap_eq_map_of_forall
  intro di hdi
  have hsorted : di ∈ sortDesc (scoredList s.indexVecs q) := List.mem_of_mem_take hdi
  have hscored : di ∈ scoredList s.indexVecs q :=
    (sortDesc_perm (scoredList s.indexVecs q)).mem_iff.mp hsorted
  rcases mem_scoredList _ _ _ hscored with ⟨i, hi, hp⟩
  have hguard : 0 ≤ di.2 ∧ di.2.toNat < s.doc_meta.length := by
    rw [hp]
    refine ⟨by omega, ?_⟩
    rw [Int.toNat_natCast]
    omega
  rw [searchCandidate, if_pos hguard]

/-- C4.  For every internally consistent store, query vector of the
store's dimension and `k ≥ 1`: `search` returns exactly
`min k (entry count)` results, sorted by descending inner product of the
query with the stored vectors, each result carrying the score, chunk text
and source identifier of one stored entry; an empty store yields `[]`
(not an error) and `k` beyond the entry count returns all entries. -/
theorem search_top_k_spec (s : LocalVectorStore) (q : Vec) (k : Nat)
    (hcons : s.indexVecs.length = s.doc_meta.length)
    (hk : 1 ≤ k) (hq : q.length = s.dimension) :
    (s.search q k).length = min k s.doc_meta.length ∧
    (s.search q k).Pairwise (fun r1 r2 => r2.score ≤ r1.score) ∧
    (∀ r ∈ s.search q k, ∃ i, i < s.doc_meta.length ∧
      r.score = ip q (s.indexVecs.getD i []) ∧
      r.text = (s.doc_meta.getD i { text_chunk := "", source := "" }).text_chunk ∧
      r.source = (s.doc_meta.getD i { text_chunk := "", source := "" }).source) ∧
    (s.doc_meta.length = 0 → s.search q k = []) ∧
    (s.doc_meta.length ≤ k → (s.search q k).length = s.doc_meta.length) := by
  have hperm := sortDesc_perm (scoredList s.indexVecs q)
  have hslen : (sortDesc (scoredList s.indexVecs q)).length = s.doc_meta.length := by
    rw [hperm.length_eq]
    unfold scoredList
    rw [List.length_map, List.length_range, hcons]
  have hrw := search_eq_of_consistent s q k hcons
  have hlen : (s.search q k).length = min k s.doc_meta.length := by
    rw [hrw, List.length_map, List.length_take, hslen]
  refine ⟨hlen, ?_, ?_, ?_, ?_⟩
  · rw [hrw]
    apply List.pairwise_map.mpr
    exact List.Pairwise.sublist (List.take_sublist k _) (sortDesc_pairwise _)
  · intro r hr
    rw [hrw] at hr
    rcases List.mem_map.mp hr with ⟨di, hdi, hres⟩
    have hscored : di ∈ scoredList s.indexVecs q :=
      hperm.mem_iff.mp (List.mem_of_mem_take hdi)
    rcases mem_scoredList _ _ _ hscored with ⟨i, hi, hp⟩
    refine ⟨i, by omega, ?_, ?_, ?_⟩ <;>
      rw [← hres, toResult, hp] <;> simp only [Int.toNat_natCast]
  · intro h0
    have : (s.search q k).length = 0 := by omega
    exact List.length_eq_zero.mp this
  · intro hge
    omega

/-- Witness for C4: a 3-entry store of dimension 2 queried with `[3, 1]`
at `k = 2`; the two highest inner products are 6 (entry 2) and 3
(entry 0). -/
theorem search_top_k_spec_witness :
    ((LocalVectorStore.mk 2
        [[1, 0], [0, 1], [2, 0]]
        [Meta.mk "a" "s1", Meta.mk "b" "s2", Meta.mk "c" "s3"]).search [3, 1] 2).length =
      min 2 3 ∧
    (LocalVectorStore.mk 2
        [[1, 0], [0, 1], [2, 0]]
        [Meta.mk "a" "s1", Meta.mk "b" "s2", Meta.mk "c" "s3"]).search [3, 1] 2 =
      [SearchResult.mk 6 "c" "s3", SearchResult.mk 3 "a" "s1"] :=
  ⟨(search_top_k_spec (LocalVectorStore.mk 2
      [[1, 0], [0, 1], [2, 0]]
      [Meta.mk "a" "s1", Meta.mk "b" "s2", Meta.mk "c" "s3"]) [3, 1] 2
      rfl (by decide) rfl).1.trans (by decide), by decide⟩

/-- C10.  `search` is total on every store state, even when the index's
vector count and the metadata list length disagree: candidates with a
negative or out-of-range index are skipped, every returned result reads a
valid metadata entry, and at most
`min k (min (index count) (metadata length))` results come back. -/
theorem search_never_reads_out_of_bounds (s : LocalVectorStore) (q : Vec) (k : Nat) :
    (s.search q k).length ≤ min k (min s.indexVecs.length s.doc_meta.length) ∧
    ∀ r ∈ s.search q k, ∃ i, i < s.doc_meta.length ∧
      r.text = (s.doc_meta.getD i { text_chunk := "", source := "" }).text_chunk ∧
      r.source = (s.doc_meta.getD i { text_chunk := "", source := "" }).source := by
  have hrw : s.search q k =
      (((sortDesc (scoredList s.indexVecs q)).take k).filter
        (fun di => decide (0 ≤ di.2 ∧ di.2.toNat < s.doc_meta.length))).map
          (toResult s.doc_meta) := by
    rw [search_eq_filterMap_take]
    exact filterMap_guard_eq _ _ _
  have hslen : (sortDesc (scoredList s.indexVecs q)).length = s.indexVecs.length := by
    rw [(sortDesc_perm (scoredList s.indexVecs q)).length_eq]
    unfold scoredList
    rw [List.length_map, List.length_range]
  have hfilter_sub :
      (((sortDesc (scoredList s.indexVecs q)).take k).filter
        (fun di => decide (0 ≤ di.2 ∧ di.2.toNat < s.doc_meta.length))).Sublist
        (sortDesc (scoredList s.indexVecs q)) :=
    List.Sublist.trans (List.filter_sublist _) (List.take_sublist k _)
  constructor
  · rw [hrw, List.length_map]
    have h1 : (((sortDesc (scoredList s.indexVecs q)).take k).filter
        (fun di => decide (0 ≤ di.2 ∧ di.2.toNat < s.doc_meta.length))).length ≤
        ((sortDesc (scoredList s.indexVecs q)).take k).length :=
      List.length_filter_le _ _
    have h2 : ((sortDesc (scoredList s.indexVecs q)).take k).length =
        min k s.indexVecs.length := by
      rw [List.length_take, hslen]
    -- the kept candidates carry pairwise-distinct nonnegative indices below
    -- the metadata length, so there are at most `doc_meta.length` of them
    have hnodup_snd : ((sortDesc (scoredList s.indexVecs q)).map Prod.snd).Nodup := by
      have hperm := (sortDesc_perm (scoredList s.indexVecs q)).map Prod.snd
      rw [hperm.nodup_iff]
      unfold scoredList
      rw [List.map_map]
      apply List.Nodup.map_on ?_ (List.nodup_range _)
      intro x _ y _ hxy
      simp only [Function.comp_apply] at hxy
      exact_mod_cast hxy
    have hkept_nodup : ((((sortDesc (scoredList s.indexVecs q)).take k).filter
        (fun di => decide (0 ≤ di.2 ∧ di.2.toNat < s.doc_meta.length))).map Prod.snd).Nodup :=
      List.Nodup.sublist (hfilter_sub.map Prod.snd) hnodup_snd
    have hnat_nodup : (((((sortDesc (scoredList s.indexVecs q)).take k).filter
        (fun di => decide (0 ≤ di.2 ∧ di.2.toNat < s.doc_meta.length))).map Prod.snd).map
          Int.toNat).Nodup := by
      apply List.Nodup.map_on ?_ hkept_nodup
      intro x hx y hy hxy
      rcases List.mem_map.mp hx with ⟨dx, hdx, hx2⟩
      rcases List.mem_map.mp hy with ⟨dy, hdy, hy2⟩
      have hcx' := of_decide_eq_true (List.mem_filter.mp hdx).2
      have hcy' := of_decide_eq_true (List.mem_filter.mp hdy).2
      subst hx2
      subst hy2
      omega
    have hnat_lt : ∀ x ∈ ((((sortDesc (scoredList s.indexVecs q)).take k).filter
        (fun di => decide (0 ≤ di.2 ∧ di.2.toNat < s.doc_meta.length))).map Prod.snd).map
          Int.toNat, x < s.doc_meta.length := by
      intro x hx
      rcases List.mem_map.mp hx with ⟨y, hy, hx2⟩
      rcases List.mem_map.mp hy with ⟨dz, hdz, hy2⟩
      have hc := of_decide_eq_true (List.mem_filter.mp hdz).2
      rw [← hx2, ← hy2]
      exact hc.2
    have h3 := length_le_of_nodup_lt _ _ hnat_nodup hnat_lt
    rw [List.length_map, List.length_map] at h3
    omega
  · intro r hr
    rw [hrw] at hr
    rcases List.mem_map.mp hr with ⟨di, hdi, hres⟩
    have hc := of_decide_eq_true (List.mem_filter.mp hdi).2
    exact ⟨di.2.toNat, hc.2, by rw [← hres]; rfl, by rw [← hres]; rfl⟩

/-- Witness for C10 at an inconsistent store (3 index vectors, 1
metadata entry) with `k = 5`: only the candidate with index 0 survives
the bounds guard. -/
theorem search_never_reads_out_of_bounds_witness :
    (((LocalVectorStore.mk 2 [[1, 0], [0, 1], [2, 0]] [Meta.mk "a" "s1"]).search
        [3, 1] 5).length ≤ min 5 (min 3 1) ∧
      ∀ r ∈ (LocalVectorStore.mk 2 [[1, 0], [0, 1], [2, 0]] [Meta.mk "a" "s1"]).search
          [3, 1] 5, ∃ i,
        i < (LocalVectorStore.mk 2 [[1, 0], [0, 1], [2, 0]]
            [Meta.mk "a" "s1"]).doc_meta.length ∧
        r.text = ((LocalVectorStore.mk 2 [[1, 0], [0, 1], [2, 0]]
            [Meta.mk "a" "s1"]).doc_meta.getD i
          { text_chunk := "", source := "" }).text_chunk ∧
        r.source = ((LocalVectorStore.mk 2 [[1, 0], [0, 1], [2, 0]]
            [Meta.mk "a" "s1"]).doc_meta.getD i
          { text_chunk := "", source := "" }).source) ∧
    (LocalVectorStore.mk 2 [[1, 0], [0, 1], [2, 0]] [Meta.mk "a" "s1"]).search [3, 1] 5 =
      [SearchResult.mk 3 "a" "s1"] :=
  ⟨by
    have h := search_never_reads_out_of_bounds
      (LocalVectorStore.mk 2 [[1, 0], [0, 1], [2, 0]] [Meta.mk "a" "s1"]) [3, 1] 5
    exact h,
   by decide⟩

/-! ### Persistence (`save`, lines 152–156; `_load_index`, lines 137–142)

`faiss.write_index` serialises an `IndexFlatIP` as its dimensionality
plus the stored vectors as one flat float array in insertion order;
`faiss.read_index` reconstructs the vectors by cutting that array into
`d`-sized rows.  `json.dump`/`json.load` round-trip the metadata list
exactly.  The two backing files are `index_path + ".faiss"` and
`index_path + ".meta.json"`; note that neither is the bare `index_path`
itself, which `__post_init__` checks for existence. -/

/-- The content of the `.faiss` artifact. -/
structure FaissData where
  dim : Nat
  flat : List Int
deriving Repr, DecidableEq

/-- Cut a flat array into `d`-sized rows (the reconstruction performed by
`faiss.read_index`).  The structural `fuel` only bounds the number of
rows; `flat.length` rows always suffice for `d > 0`. -/
def unflattenFuel (d : Nat) : Nat → List Int → List Vec
  | 0, _ => []
  | _ + 1, [] => []
  | fuel + 1, x :: rest => ((x :: rest).take d) :: unflattenFuel d fuel ((x :: rest).drop d)

/-- Row reconstruction with adequate fuel. -/
def unflatten (d : Nat) (flat : List Int) : List Vec :=
  unflattenFuel d flat.length flat

theorem unflattenFuel_flatten (d : Nat) (hd : 0 < d) :
    ∀ (vs : List (List Int)) (fuel : Nat), (∀ v ∈ vs, v.length = d) →
      vs.flatten.length ≤ fuel → unflattenFuel d fuel vs.flatten = vs := by
  intro vs
  induction vs with
  | nil =>
    intro fuel _ _
    rw [List.flatten_nil]
    cases fuel <;> rfl
  | cons v vs ih =>
    intro fuel hwf hfuel
    have hv : v.length = d := hwf v (List.mem_cons_self v vs)
    rw [List.flatten_cons] at hfuel ⊢
    cases v with
    | nil => rw [List.length_nil] at hv; omega
    | cons a v' =>
      cases fuel with
      | zero =>
        rw [List.length_append, List.length_cons] at hfuel
        omega
      | succ fuel =>
        rw [List.cons_append, unflattenFuel]
        have hd' : d = v'.length + 1 := by
          rw [← hv, List.length_cons]
        have ht : (a :: (v' ++ vs.flatten)).take d = a :: v' := by
          rw [hd', List.take_succ_cons, List.take_left]
        have hdr : (a :: (v' ++ vs.flatten)).drop d = vs.flatten := by
          rw [hd', List.drop_succ_cons, List.drop_left]
        have hlen : vs.flatten.length ≤ fuel := by
          simp only [List.cons_append, List.length_cons, List.length_append] at hfuel
          omega
        rw [ht, hdr, ih fuel (fun w hw => hwf w (List.mem_cons_of_mem _ hw)) hlen]

theorem unflatten_flatten (d : Nat) (vs : List (List Int)) (hd : 0 < d)
    (hwf : ∀ v ∈ vs, v.length = d) : unflatten d vs.flatten = vs :=
  unflattenFuel_flatten d hd vs vs.flatten.length hwf (Nat.le_refl _)

/-- The filesystem state the program touches, fixing
`index_path = "local_docs.index"`: whether a file exists at the bare
`index_path` (checked by `__post_init__`), and the contents of the two
artifacts at `index_path + ".faiss"` and `index_path + ".meta.json"`
(`none` = absent). -/
structure FileSystem where
  basePresent : Bool
  faissFile : Option FaissData
  metaFile : Option (List Meta)
deriving Repr, DecidableEq

/-- The method `LocalVectorStore._load_index`: reconstruct the store from the two
backing artifacts.  The store's effective dimensionality is the loaded
index's `d` (the dataclass field is only read when creating a fresh
index). -/
def LocalVectorStore.load_index (fd : FaissData) (metas : List Meta) : LocalVectorStore :=
  { dimension := fd.dim, indexVecs := unflatten fd.dim fd.flat, doc_meta := metas }

/-- The method `LocalVectorStore.save`: write the index to `index_path + ".faiss"`
and the metadata to `index_path + ".meta.json"`.  The bare `index_path`
is untouched (`basePresent` is unchanged). -/
def LocalVectorStore.save (s : LocalVectorStore) (fs : FileSystem) : FileSystem :=
  { basePresent := fs.basePresent,
    faissFile := some { dim := s.dimension, flat := s.indexVecs.flatten },
    metaFile := some s.doc_meta }

/-- The constructor hook `LocalVectorStore.__post_init__` (lines 130–135): load the store from
the backing artifacts when a file exists at the bare `index_path`,
otherwise create a fresh empty index of dimension 1536; a missing or
unreadable artifact while loading raises (modelled as `Except.error`). -/
def LocalVectorStore.post_init (fs : FileSystem) : Except String LocalVectorStore :=
  if fs.basePresent then
    match fs.faissFile, fs.metaFile with
    | some fd, some metas => Except.ok (LocalVectorStore.load_index fd metas)
    | _, _ => Except.error "failed to read index files"
  else Except.ok { dimension := 1536, indexVecs := [], doc_meta := [] }

/-- C5.  Persist-then-load round-trip: for every store whose vectors all
have the store's dimension (as FAISS enforces on `add`), `save` writes
two artifacts from which `_load_index` reconstructs a store that is equal
to the original — in particular `search` returns identical ranked
results (same order, same scores) for every query vector and `k`. -/
theorem save_load_roundtrip (s : LocalVectorStore) (q : Vec) (k : Nat) (fs : FileSystem)
    (hd : 0 < s.dimension) (hwf : ∀ v ∈ s.indexVecs, v.length = s.dimension) :
    ∃ fd metas, (s.save fs).faissFile = some fd ∧ (s.save fs).metaFile = some metas ∧
      LocalVectorStore.load_index fd metas = s ∧
      (LocalVectorStore.load_index fd metas).search q k = s.search q k := by
  refine ⟨{ dim := s.dimension, flat := s.indexVecs.flatten }, s.doc_meta, rfl, rfl, ?_, ?_⟩
  · rw [LocalVectorStore.load_index]
    cases s with
    | mk dim vecs meta =>
      simp only at hd hwf ⊢
      rw [unflatten_flatten dim vecs hd hwf]
  · have h : LocalVectorStore.load_index
        { dim := s.dimension, flat := s.indexVecs.flatten } s.doc_meta = s := by
      rw [LocalVectorStore.load_index]
      cases s with
      | mk dim vecs meta =>
        simp only at hd hwf ⊢
        rw [unflatten_flatten dim vecs hd hwf]
    rw [h]

/-- Witness for C5 at a concrete store, query and `k`. -/
theorem save_load_roundtrip_witness :
    ∃ fd metas,
      ((LocalVectorStore.mk 2 [[1, 0], [0, 1]] [Meta.mk "a" "s1", Meta.mk "b" "s2"]).save
        (FileSystem.mk false none none)).faissFile = some fd ∧
      ((LocalVectorStore.mk 2 [[1, 0], [0, 1]] [Meta.mk "a" "s1", Meta.mk "b" "s2"]).save
        (FileSystem.mk false none none)).metaFile = some metas ∧
      LocalVectorStore.load_index fd metas =
        LocalVectorStore.mk 2 [[1, 0], [0, 1]] [Meta.mk "a" "s1", Meta.mk "b" "s2"] ∧
      (LocalVectorStore.load_index fd metas).search [5, 3] 1 =
        (LocalVectorStore.mk 2 [[1, 0], [0, 1]] [Meta.mk "a" "s1", Meta.mk "b" "s2"]).search
          [5, 3] 1 :=
  save_load_roundtrip
    (LocalVectorStore.mk 2 [[1, 0], [0, 1]] [Meta.mk "a" "s1", Meta.mk "b" "s2"])
    [5, 3] 1 (FileSystem.mk false none none) (by decide) (by decide)

/-! ### The append-only invariant (C6)

The store's public operations after construction: `add_embeddings`
(mutates index and metadata in lock-step), `save` (writes the
filesystem, store untouched) and `search` (read-only). -/

/-- One invocation of a public store operation. -/
inductive StoreOp where
  | addBatch (embeddings : List Vec) (metas : List Meta)
  | persist
  | searchOp (q : Vec) (k : Nat)

/-- Effect of one operation on the in-memory store: `save` and `search`
leave it unchanged (their effects are on the filesystem and the returned
value respectively). -/
def applyOp (s : LocalVectorStore) : StoreOp → LocalVectorStore
  | StoreOp.addBatch es ms => s.add_embeddings es ms
  | StoreOp.persist => s
  | StoreOp.searchOp _ _ => s

/-- The vectors an operation actually appends to the index
(`add_embeddings` is a no-op on an empty embedding list). -/
def opVecs : StoreOp → List Vec
  | StoreOp.addBatch es _ => if es.isEmpty then [] else es
  | StoreOp.persist => []
  | StoreOp.searchOp _ _ => []

/-- The metadata entries an operation actually appends. -/
def opMetas : StoreOp → List Meta
  | StoreOp.addBatch es ms => if es.isEmpty then [] else ms
  | StoreOp.persist => []
  | StoreOp.searchOp _ _ => []

/-- Run a sequence of store operations. -/
def runOps (s : LocalVectorStore) (ops : List StoreOp) : LocalVectorStore :=
  ops.foldl applyOp s

theorem runOps_append_shape (s0 : LocalVectorStore) (ops : List StoreOp) :
    runOps s0 ops =
      { dimension := s0.dimension,
        indexVecs := s0.indexVecs ++ (ops.map opVecs).flatten,
        doc_meta := s0.doc_meta ++ (ops.map opMetas).flatten } := by
  induction ops generalizing s0 with
  | nil =>
    simp [runOps]
  | cons op ops ih =>
    rw [runOps, List.foldl_cons, List.map_cons, List.map_cons, List.flatten_cons,
      List.flatten_cons]
    have h := ih (applyOp s0 op)
    rw [runOps] at h
    rw [h]
    cases op with
    | addBatch es ms =>
      rw [applyOp, LocalVectorStore.add_embeddings, opVecs, opMetas]
      by_cases hes : es.isEmpty
      · rw [if_pos hes, if_pos hes, if_pos hes, List.nil_append, List.nil_append]
      · rw [if_neg hes, if_neg hes, if_neg hes]
        simp only [List.append_assoc]
    | persist =>
      rw [applyOp, opVecs, opMetas, List.nil_append, List.nil_append]
    | searchOp q k =>
      rw [applyOp, opVecs, opMetas, List.nil_append, List.nil_append]

theorem opVecs_length_eq_opMetas (ops : List StoreOp)
    (hops : ∀ op ∈ ops, ∀ es ms, op = StoreOp.addBatch es ms → es.length = ms.length) :
    ((ops.map opVecs).flatten).length = ((ops.map opMetas).flatten).length := by
  induction ops with
  | nil => rfl
  | cons op ops ih =>
    rw [List.map_cons, List.map_cons, List.flatten_cons, List.flatten_cons,
      List.length_append, List.length_append,
      ih (fun o ho es ms h => hops o (List.mem_cons_of_mem op ho) es ms h)]
    have hop : (opVecs op).length = (opMetas op).length := by
      cases op with
      | addBatch es ms =>
        rw [opVecs, opMetas]
        by_cases hes : es.isEmpty
        · rw [if_pos hes, if_pos hes]
          rfl
        · rw [if_neg hes, if_neg hes]
          exact hops _ (List.mem_cons_self _ _) es ms rfl
      | persist => rfl
      | searchOp q k => rfl
    omega

/-- C6.  From any internally consistent starting store (an empty
construction or a load of mutually consistent backing files), any
sequence of `add_embeddings` calls with equal-length parallel lists,
interleaved with `save` and `search` calls, preserves
`len(doc_meta) == index.ntotal`; moreover the final store is exactly the
starting store with each batch's vectors and metadata appended in
lock-step order — nothing is reordered or deleted. -/
theorem store_lockstep_invariant (s0 : LocalVectorStore) (ops : List StoreOp)
    (h0 : s0.indexVecs.length = s0.doc_meta.length)
    (hops : ∀ op ∈ ops, ∀ es ms, op = StoreOp.addBatch es ms → es.length = ms.length) :
    runOps s0 ops =
      { dimension := s0.dimension,
        indexVecs := s0.indexVecs ++ (ops.map opVecs).flatten,
        doc_meta := s0.doc_meta ++ (ops.map opMetas).flatten } ∧
    (runOps s0 ops).indexVecs.length = (runOps s0 ops).doc_meta.length := by
  refine ⟨runOps_append_shape s0 ops, ?_⟩
  rw [runOps_append_shape s0 ops]
  simp only [List.length_append]
  rw [opVecs_length_eq_opMetas ops hops, h0]

/-- A concrete operation sequence for the C6 witness: two non-trivial
batches, an empty batch, a persist and a search. -/
def sampleOps : List StoreOp :=
  [StoreOp.addBatch [[1]] [Meta.mk "a" "s"],
   StoreOp.persist,
   StoreOp.searchOp [1] 3,
   StoreOp.addBatch [] [],
   StoreOp.addBatch [[2], [3]] [Meta.mk "b" "s", Meta.mk "c" "t"]]

/-- Witness for C6: the sample sequence run from an empty store. -/
theorem store_lockstep_invariant_witness :
    (runOps (LocalVectorStore.mk 1536 [] []) sampleOps =
      { dimension := 1536,
        indexVecs := [] ++ (sampleOps.map opVecs).flatten,
        doc_meta := [] ++ (sampleOps.map opMetas).flatten } ∧
    (runOps (LocalVectorStore.mk 1536 [] []) sampleOps).indexVecs.length =
      (runOps (LocalVectorStore.mk 1536 [] []) sampleOps).doc_meta.length) ∧
    runOps (LocalVectorStore.mk 1536 [] []) sampleOps =
      LocalVectorStore.mk 1536 [[1], [2], [3]]
        [Meta.mk "a" "s", Meta.mk "b" "s", Meta.mk "c" "t"] :=
  ⟨store_lockstep_invariant (LocalVectorStore.mk 1536 [] []) sampleOps rfl
    (by
      intro op hop es ms h
      subst h
      simp only [sampleOps, List.mem_cons, List.not_mem_nil, or_false] at hop
      rcases hop with h | h | h | h | h <;> first
        | (injection h with h1 h2; subst h1; subst h2; rfl)
        | exact absurd h (by intro hcon; cases hcon)),
   by decide⟩

/-! ### The document loader (`DocumentLoader.load`, lines 62–112) -/

/-- One loaded document: the dict
`{"raw_content": <string>, "url": <basename>}`. -/
structure RawDoc where
  raw_content : String
  url : String
deriving Repr, DecidableEq

/-- One file found by the recursive glob over the corpus directory, with
the outcomes of the external reads: `readText` is the result of
`open(fp).read()` (`none` = raised), `pdfExtract` the PyMuPDF page-text
extraction (`none` = PyMuPDF missing or extraction raised). -/
structure SourceFile where
  path : String
  ext : String
  readText : Option String
  pdfExtract : Option String
deriving Repr, DecidableEq

/-- The helper `os.path.basename`: the characters after the last path separator. -/
def basename (p : String) : String :=
  String.mk (p.data.foldl (fun acc c => if c = '/' then [] else acc ++ [c]) [])

/-- Lower-case a string character by character (`ext.lower()`). -/
def lowerStr (e : String) : String := String.mk (e.data.map Char.toLower)

/-- The recognised plain-text extensions (compared lower-cased). -/
def isPlainTextExt (e : String) : Bool :=
  lowerStr e = ".txt" || lowerStr e = ".md" || lowerStr e = ".csv"

/-- Python truthiness of `text.strip()`: true iff the text contains a
non-whitespace character. -/
def stripNonempty (text : String) : Bool := text.data.any (fun c => !c.isWhitespace)

/-- The loop body of `DocumentLoader.load` for one enumerated file:
plain-text extensions are read and kept when non-blank, `.pdf` goes
through the optional extraction capability, read/extract failures are
logged and skipped, and every other extension is silently ignored. -/
def loadedDoc (f : SourceFile) : Option RawDoc :=
  if isPlainTextExt f.ext then
    match f.readText with
    | some text =>
      if stripNonempty text then some (RawDoc.mk text (basename f.path)) else none
    | none => none
  else if lowerStr f.ext = ".pdf" then
    match f.pdfExtract with
    | some text =>
      if stripNonempty text then some (RawDoc.mk text (basename f.path)) else none
    | none => none
  else none

/-- The method `DocumentLoader.load`: a missing corpus directory yields the empty
list, otherwise one document per enumerated file that the loop keeps, in
enumeration order. -/
def DocumentLoader.load (dirFound : Bool) (files : List SourceFile) : List RawDoc :=
  if dirFound then files.filterMap loadedDoc else []

/-- C9 counterexample.  A `.txt` file whose content is a single space is
successfully read and decoded, yet the Loader emits no document for it
(the `if text.strip():` guard drops blank files), refuting "exactly one
RawDocument per recognized plain-text file that is successfully read and
decoded". -/
theorem loader_blank_file_counterexample :
    DocumentLoader.load true [SourceFile.mk "a.txt" ".txt" (some " ") none] = [] ∧
    isPlainTextExt ".txt" = true ∧
    (SourceFile.mk "a.txt" ".txt" (some " ") none).readText = some " " := by
  decide

/-- C9 as amended.  The Loader emits exactly one RawDocument per
enumerated file its loop keeps, in enumeration order; a file with a
recognized plain-text extension is kept exactly when it is successfully
read *and* its decoded text contains a non-whitespace character
(whitespace-only files are silently skipped), and the kept document
carries the file's full decoded text and its base filename. -/
theorem loader_one_doc_per_nonblank_file (files : List SourceFile) :
    DocumentLoader.load true files = files.filterMap loadedDoc ∧
    (∀ f t, isPlainTextExt f.ext = true → f.readText = some t → stripNonempty t = true →
      loadedDoc f = some (RawDoc.mk t (basename f.path))) ∧
    (∀ f t, isPlainTextExt f.ext = true → f.readText = some t → stripNonempty t = false →
      loadedDoc f = none) ∧
    (∀ f, isPlainTextExt f.ext = true → f.readText = none → loadedDoc f = none) := by
  refine ⟨rfl, ?_, ?_, ?_⟩
  · intro f t hext hread hblank
    simp [loadedDoc, hext, hread, hblank]
  · intro f t hext hread hblank
    simp [loadedDoc, hext, hread, hblank]
  · intro f hext hread
    simp [loadedDoc, hext, hread]

/-- Witness for the amended C9 on a mixed corpus: a kept file, a blank
file, an unreadable file and an unsupported extension. -/
theorem loader_one_doc_per_nonblank_file_witness :
    DocumentLoader.load true
        [SourceFile.mk "d/a.txt" ".txt" (some "hello") none,
         SourceFile.mk "d/b.md" ".md" (some " \n") none,
         SourceFile.mk "d/c.csv" ".csv" none none,
         SourceFile.mk "d/e.bin" ".bin" (some "xx") none] =
      [RawDoc.mk "hello" "a.txt"] ∧
    loadedDoc (SourceFile.mk "d/a.txt" ".txt" (some "hello") none) =
      some (RawDoc.mk "hello" "a.txt") :=
  ⟨by decide,
   (loader_one_doc_per_nonblank_file []).2.1
     (SourceFile.mk "d/a.txt" ".txt" (some "hello") none) "hello" (by decide) rfl (by decide)⟩

/-! ### The build path (`ensure_vectorstore_build`, lines 193–246) -/

/-- Which collaborators a call to the build path invoked: whether
`DocumentLoader.load` ran, how many `chunk_text` calls were made (one per
document) and how many embedding requests were issued (one per chunk,
successful or not). -/
structure BuildTrace where
  loaderCalled : Bool
  chunkerCalls : Nat
  embedCalls : Nat
deriving Repr, DecidableEq

/-- The external collaborators of the build path: the corpus directory
enumeration, the presence of `OPENAI_API_KEY`, the tiktoken encoding and
the per-chunk embedding call (`none` = the request raised; the loop logs
and drops that chunk). -/
structure BuildEnv where
  dirFound : Bool
  files : List SourceFile
  hasKey : Bool
  enc : Encoding
  embedFn : String → Option Vec

/-- Every (chunk text, source) pair the embedding loop attempts, in loop
order: documents in loader order, each chunked with the hard-coded
defaults `chunk_size = 600`, `chunk_overlap = 100`. -/
def buildAttempts (enc : Encoding) (docs : List RawDoc) : List (String × String) :=
  docs.flatMap (fun d => (chunk_text enc d.raw_content 600 100).map (fun ch => (ch, d.url)))

/-- The successfully embedded chunks, in loop order, paired with the
metadata dicts the loop builds for them. -/
def buildSuccesses (env : BuildEnv) (docs : List RawDoc) : List (Vec × Meta) :=
  (buildAttempts env.enc docs).filterMap
    (fun a => (env.embedFn a.1).map (fun e => (e, Meta.mk a.1 a.2)))

/-- The body of `ensure_vectorstore_build` after the store is
constructed: reuse a non-empty store as-is; otherwise load the corpus,
bail out (without saving) when it is empty or the credential is missing,
and otherwise embed every chunk, append the successes in one batch, and
save. -/
def buildFromStore (fs : FileSystem) (env : BuildEnv) (store : LocalVectorStore) :
    LocalVectorStore × FileSystem × BuildTrace :=
  if 0 < store.doc_meta.length ∧ 0 < store.indexVecs.length then
    (store, fs, BuildTrace.mk false 0 0)
  else if (DocumentLoader.load env.dirFound env.files).isEmpty then
    (store, fs, BuildTrace.mk true 0 0)
  else if env.hasKey = false then
    (store, fs, BuildTrace.mk true 0 0)
  else
    (LocalVectorStore.add_embeddings store
        ((buildSuccesses env (DocumentLoader.load env.dirFound env.files)).map Prod.fst)
        ((buildSuccesses env (DocumentLoader.load env.dirFound env.files)).map Prod.snd),
      (LocalVectorStore.add_embeddings store
        ((buildSuccesses env (DocumentLoader.load env.dirFound env.files)).map Prod.fst)
        ((buildSuccesses env (DocumentLoader.load env.dirFound env.files)).map Prod.snd)).save fs,
      BuildTrace.mk true (DocumentLoader.load env.dirFound env.files).length
        (buildAttempts env.enc (DocumentLoader.load env.dirFound env.files)).length)

/-- The function `ensure_vectorstore_build`: construct the store from the filesystem
(`__post_init__`), then run the build body.  A load failure propagates as
an exception. -/
def ensure_vectorstore_build (fs : FileSystem) (env : BuildEnv) :
    Except String (LocalVectorStore × FileSystem × BuildTrace) :=
  (LocalVectorStore.post_init fs).map (buildFromStore fs env)

instance {ε α : Type} [DecidableEq ε] [DecidableEq α] : DecidableEq (Except ε α) := fun x y =>
  match x, y with
  | Except.error a, Except.error b =>
    if h : a = b then isTrue (congrArg Except.error h)
    else isFalse (fun hc => h (Except.error.inj hc))
  | Except.ok a, Except.ok b =>
    if h : a = b then isTrue (congrArg Except.ok h)
    else isFalse (fun hc => h (Except.ok.inj hc))
  | Except.error _, Except.ok _ => isFalse (fun hc => Except.noConfusion hc)
  | Except.ok _, Except.error _ => isFalse (fun hc => Except.noConfusion hc)

theorem length_buildSuccesses (env : BuildEnv) (docs : List RawDoc) :
    (buildSuccesses env docs).length =
      (buildAttempts env.enc docs).countP (fun a => (env.embedFn a.1).isSome) := by
  rw [buildSuccesses]
  induction buildAttempts env.enc docs with
  | nil => rfl
  | cons a l ih =>
    rw [List.filterMap_cons, List.countP_cons]
    cases hfa : env.embedFn a.1 with
    | none => simp [hfa, ih]
    | some v => simp [hfa, ih]

/-- The one-file sample corpus used in closed build evaluations. -/
def sampleCorpus : List SourceFile := [SourceFile.mk "a.txt" ".txt" (some "A") none]

/-- Build collaborators for the sample corpus: directory present, key
present, every embedding call succeeds.  (FAISS's dimensionality check on
`add` is outside the claims under study, so a short vector keeps the
closed evaluations small.) -/
def sampleBuildEnv : BuildEnv :=
  BuildEnv.mk true sampleCorpus true charEncoding (fun _ => some [7])

/-- The filesystem before any run. -/
def emptyFS : FileSystem := FileSystem.mk false none none

/-- The filesystem written by the first successful build over
`sampleCorpus`: both artifacts exist, but no file was ever created at the
bare `local_docs.index` path that `__post_init__` checks. -/
def builtFS : FileSystem :=
  FileSystem.mk false (some (FaissData.mk 1536 [7])) (some [Meta.mk "A" "a.txt"])

/-- C1 evidence.  After a first build that embedded and persisted one
chunk, the backing artifacts exist (`builtFS`) — yet a second invocation
of the build path constructs a *fresh empty* store (because `save` wrote
only the `.faiss`/`.meta.json` paths and `os.path.exists` checks the bare
`index_path`, which no code ever creates) and re-runs the loader, the
chunker and one embedding call, instead of reusing the persisted store
with no embedding work as the claim (and the script's own docstring,
"Subsequent runs load that index") requires. -/
theorem second_build_reembeds :
    ensure_vectorstore_build emptyFS sampleBuildEnv =
      Except.ok (LocalVectorStore.mk 1536 [[7]] [Meta.mk "A" "a.txt"], builtFS,
        BuildTrace.mk true 1 1) ∧
    LocalVectorStore.post_init builtFS = Except.ok (LocalVectorStore.mk 1536 [] []) ∧
    ensure_vectorstore_build builtFS sampleBuildEnv =
      Except.ok (LocalVectorStore.mk 1536 [[7]] [Meta.mk "A" "a.txt"], builtFS,
        BuildTrace.mk true 1 1) := by
  decide

/-- C7.  On a build pass that actually runs (empty store, documents
present, key present), the pipeline never aborts: it returns `ok`, issues
one embedding request per chunk of every document, and the store ends
with exactly one entry per *successfully* embedded chunk — failing chunks
are dropped without aborting the rest. -/
theorem build_survives_embedding_failures (fs : FileSystem) (env : BuildEnv)
    (hbase : fs.basePresent = false)
    (hdocs : DocumentLoader.load env.dirFound env.files ≠ [])
    (hkey : env.hasKey = true) :
    ∃ store fs2 tr, ensure_vectorstore_build fs env = Except.ok (store, fs2, tr) ∧
      store.doc_meta.length =
        (buildAttempts env.enc (DocumentLoader.load env.dirFound env.files)).countP
          (fun a => (env.embedFn a.1).isSome) ∧
      tr.embedCalls =
        (buildAttempts env.enc (DocumentLoader.load env.dirFound env.files)).length := by
  have hpi : LocalVectorStore.post_init fs = Except.ok (LocalVectorStore.mk 1536 [] []) := by
    rw [LocalVectorStore.post_init, if_neg (by simp [hbase])]
  have hens : ensure_vectorstore_build fs env =
      Except.ok (buildFromStore fs env (LocalVectorStore.mk 1536 [] [])) := by
    rw [ensure_vectorstore_build, hpi]
    rfl
  have hbuild : buildFromStore fs env (LocalVectorStore.mk 1536 [] []) =
      (LocalVectorStore.add_embeddings (LocalVectorStore.mk 1536 [] [])
          ((buildSuccesses env (DocumentLoader.load env.dirFound env.files)).map Prod.fst)
          ((buildSuccesses env (DocumentLoader.load env.dirFound env.files)).map Prod.snd),
        (LocalVectorStore.add_embeddings (LocalVectorStore.mk 1536 [] [])
          ((buildSuccesses env (DocumentLoader.load env.dirFound env.files)).map Prod.fst)
          ((buildSuccesses env (DocumentLoader.load env.dirFound env.files)).map Prod.snd)).save
            fs,
        BuildTrace.mk true (DocumentLoader.load env.dirFound env.files).length
          (buildAttempts env.enc (DocumentLoader.load env.dirFound env.files)).length) := by
    rw [buildFromStore, if_neg (by simp),
      if_neg (by simp only [List.isEmpty_iff]; exact hdocs),
      if_neg (by simp [hkey])]
  refine ⟨_, _, _, by rw [hens, hbuild], ?_, rfl⟩
  rw [LocalVectorStore.add_embeddings]
  by_cases hemp : ((buildSuccesses env
      (DocumentLoader.load env.dirFound env.files)).map Prod.fst).isEmpty
  · rw [if_pos hemp]
    have hnil : buildSuccesses env (DocumentLoader.load env.dirFound env.files) = [] := by
      rcases List.isEmpty_iff.mp hemp with h
      exact List.map_eq_nil_iff.mp h
    rw [← length_buildSuccesses, hnil]
    rfl
  · rw [if_neg hemp]
    show ([] ++ (buildSuccesses env
      (DocumentLoader.load env.dirFound env.files)).map Prod.snd).length = _
    rw [List.nil_append, List.length_map, length_buildSuccesses]

/-- A three-file corpus whose middle document's embedding call fails. -/
def failingCorpus : List SourceFile :=
  [SourceFile.mk "a.txt" ".txt" (some "A") none,
   SourceFile.mk "b.txt" ".txt" (some "B") none,
   SourceFile.mk "c.txt" ".txt" (some "C") none]

/-- Build collaborators where exactly the chunk `"B"` fails to embed. -/
def failingEnv : BuildEnv :=
  BuildEnv.mk true failingCorpus true charEncoding
    (fun ch => if ch = "B" then none else some [7])

/-- Witness for C7: one simulated provider failure among 3 chunks leaves
a store with exactly 2 entries after 3 embedding attempts; the build does
not abort. -/
theorem build_survives_embedding_failures_witness :
    ∃ store fs2 tr, ensure_vectorstore_build emptyFS failingEnv = Except.ok (store, fs2, tr) ∧
      store.doc_meta.length = 2 ∧ tr.embedCalls = 3 := by
  obtain ⟨store, fs2, tr, h1, h2, h3⟩ :=
    build_survives_embedding_failures emptyFS failingEnv rfl (by decide) rfl
  exact ⟨store, fs2, tr, h1, by rw [h2]; decide, by rw [h3]; decide⟩

/-! ### The retrieval entry point (`search_local_docs`, lines 252–284)

The whole body runs inside `try/except Exception`, so *no* failure
propagates as an exception: an exception `e` anywhere in the body yields
the string `f"Error in RAG search: {e}"`.  The missing-credential check
returns the distinct fixed string
`"No OPENAI_API_KEY. Cannot embed queries."` before any embedding request
is made. -/

/-- The query-path collaborators: the build collaborators plus the
outcome of the query-embedding request (`Except.error e` = the request
raised with message `e`, caught by the surrounding `try`). -/
structure QueryEnv where
  build : BuildEnv
  queryEmbed : Except String Vec

/-- The `"%.3f"` rendering of an exact integer score. -/
def formatScore (x : Int) : String := toString x ++ ".000"

/-- One ranked block of the rendered output. -/
def renderResult (i : Nat) (r : SearchResult) : String :=
  "\n---\n[Rank " ++ toString (i + 1) ++ " | Score=" ++ formatScore r.score ++
    " | Source=" ++ r.source ++ "]\n" ++ r.text

/-- The concatenated, stripped rendering of the ranked results. -/
def formatResults (rs : List SearchResult) : String :=
  (String.join (rs.enum.map (fun p => renderResult p.1 p.2))).trim

/-- The body of `search_local_docs` once the store is available. -/
def searchWithStore (qenv : QueryEnv) (top_k : Nat) (store : LocalVectorStore) : String :=
  if store.indexVecs.length = 0 then
    "No documents found in vector store. Place docs in ./my-docs."
  else if qenv.build.hasKey = false then
    "No OPENAI_API_KEY. Cannot embed queries."
  else
    match qenv.queryEmbed with
    | Except.error e => "Error in RAG search: " ++ e
    | Except.ok q_embed =>
      if (store.search q_embed top_k).isEmpty then "No relevant docs found."
      else formatResults (store.search q_embed top_k)

/-- The function `search_local_docs`: build/load the store, then answer the query; any
exception escaping the body (including a store-load failure) is caught
and rendered as an `"Error in RAG search: ..."` string. -/
def search_local_docs (fs : FileSystem) (qenv : QueryEnv) (query : String)
    (top_k : Nat) : String :=
  match ensure_vectorstore_build fs qenv.build with
  | Except.error e => "Error in RAG search: " ++ e
  | Except.ok (store, _, _) => searchWithStore qenv top_k store

theorem search_local_docs_ok (fs : FileSystem) (qenv : QueryEnv) (query : String)
    (top_k : Nat) (store : LocalVectorStore) (fs2 : FileSystem) (tr : BuildTrace)
    (hens : ensure_vectorstore_build fs qenv.build = Except.ok (store, fs2, tr)) :
    search_local_docs fs qenv query top_k = searchWithStore qenv top_k store := by
  rw [search_local_docs, hens]

/-- A filesystem whose bare `index_path` file exists (together with
mutually consistent artifacts holding one entry), so that `__post_init__`
actually loads the persisted store. -/
def loadedFS : FileSystem :=
  FileSystem.mk true (some (FaissData.mk 2 [1, 0])) (some [Meta.mk "hello" "a.txt"])

/-- Query collaborators with the key present whose query-embedding
request raises `"boom"`. -/
def boomQueryEnv : QueryEnv :=
  QueryEnv.mk (BuildEnv.mk false [] true charEncoding (fun _ => none)) (Except.error "boom")

/-- Query collaborators with the key missing. -/
def noKeyQueryEnv : QueryEnv :=
  QueryEnv.mk (BuildEnv.mk false [] false charEncoding (fun _ => none)) (Except.error "boom")

/-- C8 counterexample.  With the credential present but the
query-embedding request failing (raising `"boom"`), `search_local_docs`
returns the interpolated string `"Error in RAG search: boom"` — not the
fixed cannot-embed message — so "every query-embedding failure returns a
fixed cannot-embed message string" is false on the code (though the
failure is still returned as a string, not propagated). -/
theorem query_embed_failure_counterexample :
    search_local_docs loadedFS boomQueryEnv "q" 3 = "Error in RAG search: boom" ∧
    "Error in RAG search: boom" ≠ "No OPENAI_API_KEY. Cannot embed queries." := by
  decide

/-- C8 as amended.  When the store is available and non-empty, a
query-embedding failure never propagates an exception: a *missing
credential* yields the fixed string
`"No OPENAI_API_KEY. Cannot embed queries."` before any embedding request
is made, while an embedding request that raises with message `e` yields
the interpolated string `"Error in RAG search: " ++ e`. -/
theorem query_embed_failure_behavior (fs : FileSystem) (qenv : QueryEnv) (query : String)
    (top_k : Nat) (store : LocalVectorStore) (fs2 : FileSystem) (tr : BuildTrace)
    (hens : ensure_vectorstore_build fs qenv.build = Except.ok (store, fs2, tr))
    (hne : store.indexVecs.length ≠ 0) :
    (qenv.build.hasKey = false →
      search_local_docs fs qenv query top_k = "No OPENAI_API_KEY. Cannot embed queries.") ∧
    (∀ e, qenv.build.hasKey = true → qenv.queryEmbed = Except.error e →
      search_local_docs fs qenv query top_k = "Error in RAG search: " ++ e) := by
  rw [search_local_docs_ok fs qenv query top_k store fs2 tr hens, searchWithStore]
  constructor
  · intro hkey
    rw [if_neg hne, if_pos hkey]
  · intro e hkey herr
    rw [if_neg hne, if_neg (by simp [hkey]), herr]

/-- Witness for the amended C8, at the loaded one-entry store: both the
missing-credential branch and the raising-embedding branch. -/
theorem query_embed_failure_behavior_witness :
    search_local_docs loadedFS noKeyQueryEnv "q" 3 =
      "No OPENAI_API_KEY. Cannot embed queries." ∧
    search_local_docs loadedFS boomQueryEnv "q" 3 = "Error in RAG search: boom" :=
  ⟨(query_embed_failure_behavior loadedFS noKeyQueryEnv "q" 3
      (LocalVectorStore.mk 2 [[1, 0]] [Meta.mk "hello" "a.txt"]) loadedFS
      (BuildTrace.mk false 0 0) (by decide) (by decide)).1 rfl,
   (query_embed_failure_behavior loadedFS boomQueryEnv "q" 3
      (LocalVectorStore.mk 2 [[1, 0]] [Meta.mk "hello" "a.txt"]) loadedFS
      (BuildTrace.mk false 0 0) (by decide) (by decide)).2 "boom" rfl rfl⟩

end DocResearch
